import Mathlib

/-!
Shallow embedding of the play-caller engine and outcome logger of
src/plays.py, together with theorems settling the specification claims.

Modelling conventions: pandas DataFrames become lists of structure values;
missing cells become Option.none; Python floats become exact rationals
(all the arithmetic the claims exercise — convex combinations with the
constants 0, 1/2, 1 and the configured weight tables — is exact); the two
library random draws of suggest_play (random.choices and DataFrame.sample)
become explicit inputs: a rational r, the value of random() in [0,1), and a
natural k picking the uniformly sampled position.
-/

deriving instance DecidableEq for Except

namespace PlayCaller

/-- Character-wise lowercasing, modelling Python str.lower on the ASCII
tags used by the dataset ("short", "Medium", "RPO", ...). -/
def lowerStr (s : String) : String := String.mk (s.data.map Char.toLower)

/-- Does the list s begin with the list p?  Helper for substring search. -/
def beginsWith : List Char → List Char → Bool
  | [], _ => true
  | _ :: _, [] => false
  | p :: ps, c :: cs => p == c && beginsWith ps cs

/-- Does p occur contiguously inside s?  Models the Python test `p in s` on
strings (via their character lists). -/
def hasSub (p : List Char) : List Char → Bool
  | [] => beginsWith p []
  | c :: cs => beginsWith p (c :: cs) || hasSub p cs

/-- Specification-level statement that p occurs contiguously inside s. -/
def IsSubstrOf (p s : List Char) : Prop := ∃ pre post : List Char, s = pre ++ p ++ post

/-- Case-insensitive containment: does s contain pat ignoring case?
Models pandas Series.str.contains(pat, case=False) for a literal pattern
(the patterns in src/plays.py are the literals "medium" and "long"; the
alternation "medium|long" is modelled as the disjunction of the two). -/
def ciContains (s pat : String) : Bool := hasSub (lowerStr pat).data (lowerStr s).data

/-- One row of the play spreadsheet as read by load_data, before the
"Play Type Category Cleaned" column is added.  Only the columns the core
logic touches are modelled; missing cells are none. -/
structure RawRow where
  playId : String
  formation : String
  playName : String
  playTypeCategory : String
  playDepth : Option String
  effectiveVsMan : Option ℚ
  effectiveVsZone : Option ℚ
  deriving DecidableEq

/-- A dataset row after load_data has added the cleaned-category column. -/
structure Row where
  playId : String
  formation : String
  playName : String
  playTypeCategory : String
  playTypeCategoryCleaned : String
  playDepth : Option String
  effectiveVsMan : Option ℚ
  effectiveVsZone : Option ℚ
  deriving DecidableEq

/-- The cleaned-category rule of load_data (src/plays.py lines 41-44):
  "rpo" if any(k in str(x).lower() for k in ["rpo", "screen"]) else x. -/
def normalizeCategory (x : String) : String :=
  if hasSub "rpo".data (lowerStr x).data || hasSub "screen".data (lowerStr x).data
  then "rpo" else x

/-- load_data (src/plays.py lines 39-45): read the table and compute the
"Play Type Category Cleaned" column once; the resulting rows are the
immutable reference data used by all later calls. -/
def loadData (rows : List RawRow) : List Row :=
  rows.map fun r =>
    { playId := r.playId
      formation := r.formation
      playName := r.playName
      playTypeCategory := r.playTypeCategory
      playTypeCategoryCleaned := normalizeCategory r.playTypeCategory
      playDepth := r.playDepth
      effectiveVsMan := r.effectiveVsMan
      effectiveVsZone := r.effectiveVsZone }

/-- Does the "Play Depth" cell of a row match str.contains("medium|long",
case=False, na=False)?  A missing cell never matches (na=False). -/
def depthMediumLong (row : Row) : Bool :=
  match row.playDepth with
  | none => false
  | some s => ciContains s "medium" || ciContains s "long"

/-- filter_by_depth (src/plays.py lines 165-169): the dataset is returned
unchanged unless down ∈ {"2nd","3rd"} and distance = "long", in which case
rows are kept when "Play Depth" contains "medium" or "long" ignoring case. -/
def filterByDepth (ds : List Row) (down distance : String) : List Row :=
  if down == "1st" then ds
  else if (down == "2nd" || down == "3rd") && distance == "long" then
    ds.filter depthMediumLong
  else ds

/-- A category-to-weight map, in dict insertion order. -/
abbrev Weights := List (String × ℚ)

/-- The weight map the dict literal stores under the key ("1st", None). -/
def w1stNone : Weights := [("dropback", 2/5), ("rpo", 3/10), ("run_option", 3/10)]

/-- The weight map stored under ("2nd", "long"). -/
def w2ndLong : Weights := [("dropback", 7/10), ("rpo", 3/10), ("run_option", 0)]

/-- The weight map stored under ("3rd", "long"). -/
def w3rdLong : Weights := [("dropback", 1), ("rpo", 0), ("run_option", 0)]

/-- The default weight map passed to .get (src/plays.py line 179). -/
def defaultWeights : Weights := [("dropback", 1/2), ("rpo", 3/10), ("run_option", 1/5)]

/-- The weight dict literal of suggest_play (src/plays.py lines 175-179).
Its first key pairs "1st" with the Python value None, modelled as Option.none,
while every lookup key carries a string distance. -/
def weightTable : List ((String × Option String) × Weights) :=
  [(("1st", none), w1stNone), (("2nd", some "long"), w2ndLong), (("3rd", some "long"), w3rdLong)]

/-- The dict lookup weights_dict.get((down, distance), default). -/
def weightsFor (down distance : String) : Weights :=
  match weightTable.find? (fun e => e.1 = (down, some distance)) with
  | some e => e.2
  | none => defaultWeights

/-- subset[subset["Play Type Category Cleaned"] == c]. -/
def catRows (subset : List Row) (c : String) : List Row :=
  subset.filter (fun row => row.playTypeCategoryCleaned == c)

/-- Running sums of a weight list starting from acc
(itertools.accumulate as used inside random.choices). -/
def cumFrom (acc : ℚ) : List ℚ → List ℚ
  | [] => []
  | w :: ws => (acc + w) :: cumFrom (acc + w) ws

/-- random.choices(population, weights=weights, k=1)[0] with r the value of
random() in [0,1): build the cumulative weights, raise on a length
mismatch or a non-positive total, then return the element whose cumulative
interval contains r * total — bisect_right on the nondecreasing cumulative
list (every weight reaching this call is non-negative), computed as the
number of cumulative sums, among the first n-1, that are ≤ the draw.
(The empty-population IndexError of the library is unreachable here:
suggest_play only calls this with a non-empty population.) -/
def randomChoices1 (population : List String) (weights : List ℚ) (r : ℚ) :
    Except String String :=
  let cum := cumFrom 0 weights
  if cum.length != population.length then
    .error "The number of weights does not match the population"
  else
    let total := cum.getLastD 0
    if total ≤ 0 then .error "Total of weights must be greater than zero"
    else
      let hi := population.length - 1
      let idx := ((cum.take hi).filter (fun y => y ≤ r * total)).length
      .ok (population.getD idx "")

/-- The "Score" column of suggest_play (src/plays.py lines 184-189):
for the dropback category, a coverage-blended combination of the two
effectiveness columns with 0.5 substituted for a missing cell (fillna);
for every other category the constant 0.5. -/
def scoreRow (coverage : ℚ) (category : String) (row : Row) : ℚ :=
  if category == "dropback" then
    (1 - coverage) * row.effectiveVsMan.getD (1/2) + coverage * row.effectiveVsZone.getD (1/2)
  else 1/2

/-- The comparator ordering rows by Score descending (ties keep their
original order: mergeSort is stable, matching nlargest keep="first"). -/
def scoreDescLe (coverage : ℚ) (category : String) (a b : Row) : Bool :=
  scoreRow coverage category b ≤ scoreRow coverage category a

/-- pool.nlargest(10, "Score"): the pool ordered by Score descending,
truncated to its first 10 rows. -/
def topSlice (coverage : ℚ) (category : String) (pool : List Row) : List Row :=
  (pool.mergeSort (scoreDescLe coverage category)).take 10

/-- top.sample(1).iloc[0] if not top.empty else None: the uniform draw is
modelled by the index k reduced modulo the slice length; an empty slice
yields none. -/
def pickFromPool (coverage : ℚ) (category : String) (pool : List Row) (k : ℕ) : Option Row :=
  let top := topSlice coverage category pool
  top.get? (k % top.length)

/-- available = [c for c in weights if not subset[...].empty]
(src/plays.py line 180), kept as (category, weight) pairs in dict order. -/
def availableOf (ds : List Row) (down distance : String) : Weights :=
  (weightsFor down distance).filter
    (fun cw => !(catRows (filterByDepth ds down distance) cw.1).isEmpty)

/-- suggest_play (src/plays.py lines 171-191).  Returns .error e for an
uncaught library exception (random.choices raising ValueError), .ok none
for the "no play" result, .ok (some row) for a recommendation. -/
def suggestPlay (ds : List Row) (down distance : String) (coverage : ℚ)
    (r : ℚ) (k : ℕ) : Except String (Option Row) :=
  let subset := filterByDepth ds down distance
  let available := availableOf ds down distance
  if available.isEmpty then .ok none
  else
    match randomChoices1 (available.map Prod.fst) (available.map Prod.snd) r with
    | .error e => .error e
    | .ok category => .ok (pickFromPool coverage category (catRows subset category) k)

/-- One row appended to the "results" worksheet by log_play_result. -/
structure ResultRow where
  timestamp : String
  playName : String
  down : String
  distance : String
  coverage : ℚ
  success : Bool
  deriving DecidableEq

/-- The observable state the logging functions touch: the two remote
worksheets, the session favorites set, the user-visible toast and error
messages, and the current-play slot.  The code keeps no other store:
in particular it has no local fallback store, so none is modelled. -/
structure AppState where
  remoteResults : List ResultRow
  remoteFavorites : List String
  favorites : List String
  toasts : List String
  errors : List String
  currentPlay : Option String
  deriving DecidableEq

/-- The state at session start. -/
def initialState : AppState :=
  { remoteResults := [], remoteFavorites := [], favorites := []
    toasts := [], errors := [], currentPlay := none }

/-- add_favorite (src/plays.py lines 198-204).  remoteOk models whether
fav_sheet.append_row succeeds; on failure the except branch shows an
error to the user and nothing else happens. -/
def addFavorite (playId : String) (remoteOk : Bool) (st : AppState) : AppState :=
  if remoteOk then
    { st with
      remoteFavorites := st.remoteFavorites ++ [playId]
      favorites := if playId ∈ st.favorites then st.favorites else st.favorites ++ [playId]
      toasts := st.toasts ++ ["Added to favorites!"] }
  else
    { st with errors := st.errors ++ ["Could not add favorite"] }

/-- log_play_result (src/plays.py lines 206-213).  remoteOk models whether
results_sheet.append_row succeeds; on failure the except branch shows an
error to the user and nothing else happens. -/
def logPlayResult (ts playName down distance : String) (coverage : ℚ) (success : Bool)
    (remoteOk : Bool) (st : AppState) : AppState :=
  if remoteOk then
    { st with
      remoteResults := st.remoteResults ++ [⟨ts, playName, down, distance, coverage, success⟩]
      toasts := st.toasts ++
        [if success then "Play logged as successful." else "Play logged as unsuccessful."]
      currentPlay := none }
  else
    { st with errors := st.errors ++ ["Failed to write to sheet"] }

/-- The depth filter as the specification describes it for every
non-widened (down, distance) combination: keep exactly the rows whose
play_depth matches the requested distance as a case-insensitive substring.
Stated from the words of the specification, for comparison with filterByDepth. -/
def specDepthFilterExact (ds : List Row) (distance : String) : List Row :=
  ds.filter fun row =>
    match row.playDepth with
    | none => false
    | some s => ciContains s distance

/-- A demo row tagged "long", man-beating dropback play. -/
def rowLongTag : Row :=
  { playId := "p1", formation := "Gun", playName := "Four Verts",
    playTypeCategory := "dropback", playTypeCategoryCleaned := "dropback",
    playDepth := some "long", effectiveVsMan := some (9/10), effectiveVsZone := some (1/10) }

/-- A demo row tagged "Long" (capitalised), zone-beating dropback play. -/
def rowZoneTag : Row :=
  { playId := "p2", formation := "Gun", playName := "Stick",
    playTypeCategory := "dropback", playTypeCategoryCleaned := "dropback",
    playDepth := some "Long", effectiveVsMan := some (1/10), effectiveVsZone := some (9/10) }

/-- A demo rpo-category row tagged "long" with no effectiveness data. -/
def rowRpoLong : Row :=
  { playId := "p3", formation := "Gun", playName := "Jet Screen",
    playTypeCategory := "RPO Screen", playTypeCategoryCleaned := "rpo",
    playDepth := some "long", effectiveVsMan := none, effectiveVsZone := none }

/-- A demo row tagged only "short". -/
def rowShortTag : Row :=
  { playId := "p4", formation := "I", playName := "Dive",
    playTypeCategory := "run_option", playTypeCategoryCleaned := "run_option",
    playDepth := some "short", effectiveVsMan := none, effectiveVsZone := none }

/-- A demo row tagged "Medium" (capitalised). -/
def rowMediumCaps : Row :=
  { playId := "p5", formation := "Gun", playName := "Drive",
    playTypeCategory := "dropback", playTypeCategoryCleaned := "dropback",
    playDepth := some "Medium", effectiveVsMan := some (1/2), effectiveVsZone := some (1/2) }

/-- A two-row demo pool of dropback plays. -/
def demoPool : List Row := [rowLongTag, rowZoneTag]

/-- A three-row demo dataset mixing depth tags. -/
def demoDs3 : List Row := [rowLongTag, rowShortTag, rowMediumCaps]

/-! ### Substring search lemmas -/

theorem beginsWith_iff (p s : List Char) : beginsWith p s = true ↔ ∃ t, s = p ++ t := by
  induction p generalizing s with
  | nil => simp [beginsWith]
  | cons a ps ih =>
    cases s with
    | nil => simp [beginsWith]
    | cons c cs =>
      simp only [beginsWith, Bool.and_eq_true, beq_iff_eq, ih, List.cons_append,
        List.cons.injEq]
      constructor
      · rintro ⟨rfl, t, rfl⟩; exact ⟨t, rfl, rfl⟩
      · rintro ⟨t, rfl, rfl⟩; exact ⟨rfl, t, rfl⟩

theorem hasSub_iff (p s : List Char) : hasSub p s = true ↔ IsSubstrOf p s := by
  induction s with
  | nil =>
    simp only [hasSub, beginsWith_iff, IsSubstrOf]
    constructor
    · rintro ⟨t, ht⟩
      rcases List.append_eq_nil.1 ht.symm with ⟨hp, ht0⟩
      exact ⟨[], [], by simp [hp]⟩
    · rintro ⟨pre, post, h⟩
      rcases List.append_eq_nil.1 (List.append_eq_nil.1 h.symm).1 with ⟨-, hp⟩
      exact ⟨[], by simp [hp]⟩
  | cons c cs ih =>
    simp only [hasSub, Bool.or_eq_true, beginsWith_iff, ih, IsSubstrOf]
    constructor
    · rintro (⟨t, ht⟩ | ⟨pre, post, hh⟩)
      · exact ⟨[], t, by simp [ht]⟩
      · exact ⟨c :: pre, post, by simp [hh]⟩
    · rintro ⟨pre, post, hh⟩
      cases pre with
      | nil => exact Or.inl ⟨post, by simpa using hh⟩
      | cons d pre' =>
        rcases List.cons.injEq .. ▸ hh with ⟨-, htl⟩
        exact Or.inr ⟨pre', post, by simpa using List.cons.inj hh |>.2⟩

/-! ### Cumulative-sum lemmas (the random.choices draw) -/

theorem cumFrom_length (ws : List ℚ) (acc : ℚ) : (cumFrom acc ws).length = ws.length := by
  induction ws generalizing acc with
  | nil => rfl
  | cons w ws ih => simp [cumFrom, ih]

theorem cumFrom_le (ws : List ℚ) (acc : ℚ) (hnn : ∀ w ∈ ws, 0 ≤ w) :
    ∀ y ∈ cumFrom acc ws, acc ≤ y := by
  induction ws generalizing acc with
  | nil => intro y hy; simp [cumFrom] at hy
  | cons w ws ih =>
    intro y hy
    have hw : 0 ≤ w := hnn w (by simp)
    rcases (by simpa [cumFrom] using hy : y = acc + w ∨ y ∈ cumFrom (acc + w) ws) with h | h
    · linarith [h.ge, h.le]
    · have := ih (acc + w) (fun v hv => hnn v (by simp [hv])) y h
      linarith

theorem cumFrom_getLastD (ws : List ℚ) (acc d : ℚ) (h : ws ≠ []) :
    (cumFrom acc ws).getLastD d = acc + ws.sum := by
  induction ws generalizing acc d with
  | nil => exact absurd rfl h
  | cons w ws ih =>
    cases ws with
    | nil => simp [cumFrom]
    | cons v vs =>
      have h2 := ih (acc + w) (acc + w) (by simp)
      simp only [cumFrom, List.getLastD_cons] at h2 ⊢
      rw [h2]; simp [List.sum_cons]; ring

/-- The index the cumulative draw selects is in range and its weight is
positive: a zero-weight element occupies an empty cumulative interval and
can never be hit by a draw strictly inside [acc, acc + total). -/
theorem drawIdx_sound (ws : List ℚ) (acc x : ℚ) (hnn : ∀ w ∈ ws, 0 ≤ w)
    (hlo : acc ≤ x) (hhi : x < acc + ws.sum) :
    (((cumFrom acc ws).take (ws.length - 1)).filter (fun y => y ≤ x)).length < ws.length ∧
    0 < ws.getD ((((cumFrom acc ws).take (ws.length - 1)).filter (fun y => y ≤ x)).length) 0 := by
  induction ws generalizing acc with
  | nil =>
    exfalso; simp only [List.sum_nil, add_zero] at hhi; linarith
  | cons w ws ih =>
    cases ws with
    | nil =>
      refine ⟨by simp, ?_⟩
      simp only [cumFrom, List.length_cons, List.length_nil, Nat.add_sub_cancel,
        List.take_zero, List.filter_nil]
      simp only [List.sum_cons, List.sum_nil, add_zero] at hhi
      simp only [List.length_nil, List.getD_cons_zero]
      linarith
    | cons v vs =>
      have hw : 0 ≤ w := hnn w (by simp)
      have hstep : (cumFrom acc (w :: v :: vs)).take ((w :: v :: vs).length - 1) =
          (acc + w) :: (cumFrom (acc + w) (v :: vs)).take ((v :: vs).length - 1) := by
        simp only [cumFrom, List.length_cons, Nat.add_sub_cancel, List.take_succ_cons]
      by_cases hx : acc + w ≤ x
      · have hhi' : x < (acc + w) + (v :: vs).sum := by
          simp only [List.sum_cons] at hhi ⊢; linarith
        obtain ⟨ih1, ih2⟩ := ih (acc + w) (fun u hu => hnn u (by simp [hu])) hx hhi'
        simp only [List.length_cons] at ih1 ih2
        rw [hstep]
        constructor
        · simp only [List.filter_cons, decide_eq_true_eq, if_pos hx, List.length_cons]
          omega
        · simp only [List.filter_cons, decide_eq_true_eq, if_pos hx, List.length_cons,
            List.getD_cons_succ]
          exact ih2
      · have hxlt : x < acc + w := lt_of_not_le hx
        have hfilter :
            (((acc + w) :: (cumFrom (acc + w) (v :: vs)).take ((v :: vs).length - 1)).filter
              (fun y => y ≤ x)) = [] := by
          rw [List.filter_cons, if_neg (by simpa using hx)]
          apply List.filter_eq_nil_iff.2
          intro y hy
          have hmem : y ∈ cumFrom (acc + w) (v :: vs) :=
            List.mem_of_mem_take hy
          have : acc + w ≤ y := cumFrom_le _ _ (fun u hu => hnn u (by simp [hu])) y hmem
          simp only [decide_eq_true_eq]
          intro hyx; linarith
        rw [hstep, hfilter]
        refine ⟨by simp, ?_⟩
        simp only [List.length_nil, List.getD_cons_zero]
        linarith

/-- A list of non-negative rationals containing a positive element has a
positive sum. -/
theorem sum_pos_of_mem (l : List ℚ) (x : ℚ) (hx : x ∈ l) (hpos : 0 < x)
    (hnn : ∀ y ∈ l, 0 ≤ y) : 0 < l.sum := by
  induction l with
  | nil => simp at hx
  | cons a l ih =>
    rcases List.mem_cons.1 hx with rfl | hmem
    · have : 0 ≤ l.sum := List.sum_nonneg (fun y hy => hnn y (by simp [hy]))
      simp only [List.sum_cons]; linarith
    · have h1 : 0 < l.sum := ih hmem (fun y hy => hnn y (by simp [hy]))
      have h2 : 0 ≤ a := hnn a (by simp)
      simp only [List.sum_cons]; linarith

/-- In the success case, random.choices lands on an in-range index whose
weight is strictly positive. -/
theorem randomChoices1_pos (population : List String) (weights : List ℚ) (r : ℚ)
    (hlen : population.length = weights.length)
    (hnn : ∀ w ∈ weights, 0 ≤ w) (hpos : 0 < weights.sum)
    (hr0 : 0 ≤ r) (hr1 : r < 1) :
    ∃ i : ℕ, i < population.length ∧
      randomChoices1 population weights r = .ok (population.getD i "") ∧
      0 < weights.getD i 0 := by
  have hwne : weights ≠ [] := by
    intro h; rw [h] at hpos; simp at hpos
  have hlast : (cumFrom 0 weights).getLastD 0 = weights.sum := by
    rw [cumFrom_getLastD _ _ _ hwne, zero_add]
  have hx0 : 0 ≤ r * weights.sum := mul_nonneg hr0 (le_of_lt hpos)
  have hx1 : r * weights.sum < weights.sum := by
    calc r * weights.sum < 1 * weights.sum := by
          exact mul_lt_mul_of_pos_right hr1 hpos
      _ = weights.sum := one_mul _
  obtain ⟨hidx, hwidx⟩ := drawIdx_sound weights 0 (r * weights.sum) hnn hx0 (by linarith)
  refine ⟨_, by rw [hlen]; exact hidx, ?_, hwidx⟩
  unfold randomChoices1
  rw [if_neg (by simp [cumFrom_length, hlen]), hlast, if_neg (not_le.2 hpos)]
  simp only [hlen, cumFrom_length]

/-! ### The weight-table lookup -/

/-- The dict lookup resolved: only the ("2nd","long") and ("3rd","long")
keys are ever hit; every other (down, distance) pair — the ("1st", None)
key included, since a lookup key always carries a string distance — falls
through to the default map. -/
theorem weightsFor_eq (down distance : String) :
    weightsFor down distance =
      if down = "2nd" ∧ distance = "long" then w2ndLong
      else if down = "3rd" ∧ distance = "long" then w3rdLong
      else defaultWeights := by
  unfold weightsFor weightTable
  have h1 : (decide ((("1st", (none : Option String)) : String × Option String) =
      (down, some distance))) = false := by simp
  by_cases h2 : down = "2nd" ∧ distance = "long"
  · obtain ⟨rfl, rfl⟩ := h2
    simp [List.find?]
  · by_cases h3 : down = "3rd" ∧ distance = "long"
    · obtain ⟨rfl, rfl⟩ := h3
      simp [List.find?]
    · have g2 : (decide ("2nd" = down) && decide ("long" = distance)) = false := by
        by_cases hd : "2nd" = down
        · have hl : ¬("long" = distance) := fun hl => h2 ⟨hd.symm, hl.symm⟩
          simp [hl]
        · simp [hd]
      have g3 : (decide ("3rd" = down) && decide ("long" = distance)) = false := by
        by_cases hd : "3rd" = down
        · have hl : ¬("long" = distance) := fun hl => h3 ⟨hd.symm, hl.symm⟩
          simp [hl]
        · simp [hd]
      simp [List.find?, h1, g2, g3, h2, h3]

/-- Every weight the table can produce is non-negative. -/
theorem weightsFor_nonneg (down distance : String) :
    ∀ cw ∈ weightsFor down distance, 0 ≤ cw.2 := by
  intro cw hcw
  rw [weightsFor_eq] at hcw
  split_ifs at hcw <;>
    simp [w2ndLong, w3rdLong, defaultWeights] at hcw <;>
    rcases hcw with h | h | h <;> simp [h] <;> norm_num

/-- A non-empty pool always yields a pick, and the pick comes from the pool. -/
theorem pickFromPool_mem (coverage : ℚ) (category : String) (pool : List Row) (k : ℕ)
    (h : pool ≠ []) :
    ∃ row, pickFromPool coverage category pool k = some row ∧
      row ∈ topSlice coverage category pool ∧ row ∈ pool := by
  have hlen : (topSlice coverage category pool).length = min 10 pool.length := by
    simp [topSlice, List.length_take, List.length_mergeSort]
  have hpos : 0 < (topSlice coverage category pool).length := by
    rw [hlen]
    have : 0 < pool.length := List.length_pos.2 h
    omega
  have hk : k % (topSlice coverage category pool).length <
      (topSlice coverage category pool).length := Nat.mod_lt _ hpos
  refine ⟨(topSlice coverage category pool).get ⟨_, hk⟩, ?_, ?_, ?_⟩
  · simp [pickFromPool, List.get?_eq_get hk]
  · exact List.get_mem _ _ _
  · have hmem : (topSlice coverage category pool).get ⟨_, hk⟩ ∈
        pool.mergeSort (scoreDescLe coverage category) :=
      (List.take_sublist _ _).mem (List.get_mem _ _ _)
    exact (List.mergeSort_perm pool (scoreDescLe coverage category)).mem_iff.1 hmem

theorem suggestPlay_pick (ds : List Row) (down distance : String) (coverage r : ℚ) (k : ℕ)
    (hr0 : 0 ≤ r) (hr1 : r < 1)
    (hcat : ∃ cw ∈ weightsFor down distance, 0 < cw.2 ∧
       catRows (filterByDepth ds down distance) cw.1 ≠ []) :
    ∃ row cw, suggestPlay ds down distance coverage r k = .ok (some row) ∧
      cw ∈ weightsFor down distance ∧ 0 < cw.2 ∧
      row.playTypeCategoryCleaned = cw.1 ∧
      catRows (filterByDepth ds down distance) cw.1 ≠ [] ∧
      row ∈ filterByDepth ds down distance := by
  obtain ⟨cw0, hmem0, hpos0, hrows0⟩ := hcat
  have hcw0av : cw0 ∈ availableOf ds down distance := by
    refine List.mem_filter.2 ⟨hmem0, ?_⟩
    simp [List.isEmpty_iff, hrows0]
  have havne : availableOf ds down distance ≠ [] := List.ne_nil_of_mem hcw0av
  have hnn : ∀ w ∈ (availableOf ds down distance).map Prod.snd, 0 ≤ w := by
    intro w hw
    obtain ⟨cw, hcw, rfl⟩ := List.mem_map.1 hw
    exact weightsFor_nonneg down distance cw (List.mem_of_mem_filter hcw)
  have hsumpos : 0 < ((availableOf ds down distance).map Prod.snd).sum :=
    sum_pos_of_mem _ cw0.2 (List.mem_map_of_mem _ hcw0av) hpos0 hnn
  obtain ⟨i, hi, hrc, hwi⟩ := randomChoices1_pos ((availableOf ds down distance).map Prod.fst)
    ((availableOf ds down distance).map Prod.snd) r (by simp) hnn hsumpos hr0 hr1
  simp only [List.length_map] at hi
  have hpop : ((availableOf ds down distance).map Prod.fst).getD i "" =
      ((availableOf ds down distance).get ⟨i, hi⟩).1 := by
    rw [List.getD_eq_getD_get?, List.get?_map, List.get?_eq_get hi]
    rfl
  have hwgt : ((availableOf ds down distance).map Prod.snd).getD i 0 =
      ((availableOf ds down distance).get ⟨i, hi⟩).2 := by
    rw [List.getD_eq_getD_get?, List.get?_map, List.get?_eq_get hi]
    rfl
  have hacw_av : (availableOf ds down distance).get ⟨i, hi⟩ ∈ availableOf ds down distance :=
    List.get_mem _ _ _
  have hacw_filter := List.mem_filter.1 hacw_av
  have hpool_ne : catRows (filterByDepth ds down distance)
      ((availableOf ds down distance).get ⟨i, hi⟩).1 ≠ [] := by
    have := hacw_filter.2
    simp only [Bool.not_eq_true', List.isEmpty_iff] at this
    simpa using this
  obtain ⟨row, hpick, hrowtop, hrowpool⟩ := pickFromPool_mem coverage
    ((availableOf ds down distance).get ⟨i, hi⟩).1
    (catRows (filterByDepth ds down distance) ((availableOf ds down distance).get ⟨i, hi⟩).1)
    k hpool_ne
  have hrowsub : row ∈ filterByDepth ds down distance := List.mem_of_mem_filter hrowpool
  have hrowcat : row.playTypeCategoryCleaned =
      ((availableOf ds down distance).get ⟨i, hi⟩).1 := by
    have := (List.mem_filter.1 hrowpool).2
    simpa [beq_iff_eq] using this
  have havail_isEmpty : (availableOf ds down distance).isEmpty = false := by
    simpa [List.isEmpty_iff] using havne
  have hsp : suggestPlay ds down distance coverage r k =
      .ok (pickFromPool coverage ((availableOf ds down distance).get ⟨i, hi⟩).1
        (catRows (filterByDepth ds down distance)
          ((availableOf ds down distance).get ⟨i, hi⟩).1) k) := by
    simp only [suggestPlay, havail_isEmpty, Bool.false_eq_true, if_false, hrc, hpop]
  exact ⟨row, (availableOf ds down distance).get ⟨i, hi⟩, by rw [hsp, hpick],
    hacw_filter.1, hwgt ▸ hwi, hrowcat, hpool_ne, hrowsub⟩



/-- When no category in the weight map has matching rows, available is
empty and suggest_play returns the "no play" result. -/
theorem suggestPlay_none (ds : List Row) (down distance : String) (coverage r : ℚ) (k : ℕ)
    (h : ∀ cw ∈ weightsFor down distance, catRows (filterByDepth ds down distance) cw.1 = []) :
    suggestPlay ds down distance coverage r k = .ok none := by
  have hav : availableOf ds down distance = [] := by
    apply List.filter_eq_nil_iff.2
    intro cw hcw
    simp [h cw hcw]
  simp [suggestPlay, hav]

/-- The descending-score comparator is transitive. -/
theorem scoreDescLe_trans (coverage : ℚ) (category : String) (a b c : Row)
    (hab : scoreDescLe coverage category a b = true)
    (hbc : scoreDescLe coverage category b c = true) :
    scoreDescLe coverage category a c = true := by
  simp only [scoreDescLe, decide_eq_true_eq] at *
  linarith

/-- The descending-score comparator is total. -/
theorem scoreDescLe_total (coverage : ℚ) (category : String) (a b : Row) :
    (scoreDescLe coverage category a b || scoreDescLe coverage category b a) = true := by
  simp only [scoreDescLe, Bool.or_eq_true, decide_eq_true_eq]
  exact le_total _ _

/-! ### Claim theorems -/

/-- C1, counterexample.  The claim says that for a combination other than
down ∈ {2nd,3rd} with distance "long" — here ("2nd","short") — the depth
filter keeps exactly the rows whose play_depth matches the requested
distance, so a row tagged only "long" would be excluded.  The code keeps
it: filter_by_depth returns the whole dataset on this combination, and
differs from the spec-described exact filter. -/
theorem c1_counterexample :
    filterByDepth [rowLongTag] "2nd" "short" = [rowLongTag] ∧
    specDepthFilterExact [rowLongTag] "short" = [] ∧
    filterByDepth [rowLongTag] "2nd" "short" ≠ specDepthFilterExact [rowLongTag] "short" := by
  refine ⟨rfl, rfl, ?_⟩
  intro h
  exact List.cons_ne_nil rowLongTag [] h

/-- C1, amended.  For every (down, distance) combination other than
down ∈ {2nd, 3rd} with distance = "long", filter_by_depth performs no
narrowing at all: it returns the dataset unchanged. -/
theorem c1_no_narrowing_outside_widened_pair (ds : List Row) (down distance : String)
    (h : ¬((down = "2nd" ∨ down = "3rd") ∧ distance = "long")) :
    filterByDepth ds down distance = ds := by
  unfold filterByDepth
  by_cases h1 : down = "1st"
  · simp [h1]
  · by_cases hd : distance = "long"
    · have h2 : down ≠ "2nd" := fun hc => h ⟨Or.inl hc, hd⟩
      have h3 : down ≠ "3rd" := fun hc => h ⟨Or.inr hc, hd⟩
      simp [h1, h2, h3]
    · simp [h1, hd]

/-- Witness for the amended theorem of C1 at the concrete input ("2nd","short"). -/
theorem c1_witness :
    ¬((("2nd" : String) = "2nd" ∨ ("2nd" : String) = "3rd") ∧ ("short" : String) = "long") ∧
    filterByDepth [rowLongTag] "2nd" "short" = [rowLongTag] :=
  ⟨by decide, c1_no_narrowing_outside_widened_pair [rowLongTag] "2nd" "short" (by decide)⟩

/-- C2, counterexample.  At a concrete failing remote append, the code
shows the user an error (st.error) and writes the event nowhere: there is
no local fallback store, and the state changes only by the error message.
This falsifies both halves of the claim — the event is not appended to a
fallback store, and the failure is surfaced to the user. -/
theorem c2_counterexample :
    logPlayResult "2026-01-01T00:00:00" "Four Verts" "1st" "short" (1/2) true false
      initialState = { initialState with errors := ["Failed to write to sheet"] } ∧
    (logPlayResult "2026-01-01T00:00:00" "Four Verts" "1st" "short" (1/2) true false
      initialState).errors ≠ [] ∧
    (logPlayResult "2026-01-01T00:00:00" "Four Verts" "1st" "short" (1/2) true false
      initialState).remoteResults = [] ∧
    addFavorite "p1" false initialState =
      { initialState with errors := ["Could not add favorite"] } := by
  refine ⟨rfl, ?_, rfl, rfl⟩
  intro h
  exact List.cons_ne_nil "Failed to write to sheet" [] h

/-- C2, amended.  When the remote append fails (for an outcome or a
favorite), the exception is caught and an error message is shown to the
user; the event is not written anywhere else — the code has no local
fallback store — and the state is otherwise unchanged. -/
theorem c2_failure_shows_error_no_fallback (ts playName down distance : String)
    (coverage : ℚ) (success : Bool) (playId : String) (st : AppState) :
    logPlayResult ts playName down distance coverage success false st =
      { st with errors := st.errors ++ ["Failed to write to sheet"] } ∧
    addFavorite playId false st =
      { st with errors := st.errors ++ ["Could not add favorite"] } := by
  exact ⟨rfl, rfl⟩

/-- C3.  For down ∈ {2nd, 3rd} and distance = "long", the depth filter
keeps exactly the rows whose "Play Depth" contains "medium" or "long"
ignoring case (characterised through the substring predicate), and a row
tagged only "short" is rejected. -/
theorem c3_long_widened_filter (ds : List Row) (down distance : String)
    (hdown : down = "2nd" ∨ down = "3rd") (hdist : distance = "long") :
    filterByDepth ds down distance = ds.filter depthMediumLong ∧
    (∀ row : Row, row ∈ filterByDepth ds down distance ↔
      row ∈ ds ∧ depthMediumLong row = true) ∧
    (∀ row : Row, ∀ s, row.playDepth = some s →
      (depthMediumLong row = true ↔
        IsSubstrOf "medium".data (lowerStr s).data ∨
        IsSubstrOf "long".data (lowerStr s).data)) ∧
    (∀ row : Row, row.playDepth = some "short" →
      row ∉ filterByDepth ds down distance) := by
  subst hdist
  have h0 : filterByDepth ds down "long" = ds.filter depthMediumLong := by
    rcases hdown with rfl | rfl <;> rfl
  refine ⟨h0, ?_, ?_, ?_⟩
  · intro row
    rw [h0]
    exact List.mem_filter
  · intro row s hs
    have hm : lowerStr "medium" = "medium" := rfl
    have hl : lowerStr "long" = "long" := rfl
    simp only [depthMediumLong, hs, ciContains, hm, hl, Bool.or_eq_true, hasSub_iff]
  · intro row hshort hmem
    rw [h0] at hmem
    have hd : depthMediumLong row = true := (List.mem_filter.1 hmem).2
    rw [show depthMediumLong row = false by
      simp only [depthMediumLong, hshort]; rfl] at hd
    exact Bool.false_ne_true hd

/-- Witness for C3 at down = "3rd", distance = "long" on a concrete
three-row dataset; "Medium" checks the case-insensitive acceptance and
the "short"-tagged row the rejection. -/
theorem c3_witness :
    (("3rd" : String) = "2nd" ∨ ("3rd" : String) = "3rd") ∧
    ("long" : String) = "long" ∧
    filterByDepth demoDs3 "3rd" "long" = demoDs3.filter depthMediumLong ∧
    (rowMediumCaps ∈ filterByDepth demoDs3 "3rd" "long" ↔
      rowMediumCaps ∈ demoDs3 ∧ depthMediumLong rowMediumCaps = true) ∧
    (depthMediumLong rowMediumCaps = true ↔
      IsSubstrOf "medium".data (lowerStr "Medium").data ∨
      IsSubstrOf "long".data (lowerStr "Medium").data) ∧
    rowShortTag ∉ filterByDepth demoDs3 "3rd" "long" := by
  have A := c3_long_widened_filter demoDs3 "3rd" "long" (Or.inr rfl) rfl
  exact ⟨Or.inr rfl, rfl, A.1, A.2.1 rowMediumCaps, A.2.2.1 rowMediumCaps "Medium" rfl,
    A.2.2.2 rowShortTag rfl⟩

/-- C4.  The dropback score is the coverage blend of the two
effectiveness values with 0.5 substituted for a missing one; at coverage
0 it equals the (possibly substituted) man value, at coverage 1 the zone
value; every non-dropback category scores the constant 0.5. -/
theorem c4_dropback_score (coverage : ℚ) (row : Row) :
    scoreRow coverage "dropback" row =
      (1 - coverage) * row.effectiveVsMan.getD (1/2) +
        coverage * row.effectiveVsZone.getD (1/2) ∧
    scoreRow 0 "dropback" row = row.effectiveVsMan.getD (1/2) ∧
    scoreRow 1 "dropback" row = row.effectiveVsZone.getD (1/2) ∧
    (row.effectiveVsMan = none ∧ row.effectiveVsZone = none →
      scoreRow coverage "dropback" row = 1/2) ∧
    (∀ category, category ≠ "dropback" → scoreRow coverage category row = 1/2) := by
  refine ⟨by simp [scoreRow], by simp [scoreRow], by simp [scoreRow], ?_, ?_⟩
  · rintro ⟨hman, hzone⟩
    simp [scoreRow, hman, hzone]
    ring
  · intro category hc
    simp [scoreRow, hc]

/-- Witness for C4 at coverage 1/3 on concrete rows: the effectiveness
cells of rowRpoLong are both missing, and category "rpo" is scored 0.5. -/
theorem c4_witness :
    (rowRpoLong.effectiveVsMan = none ∧ rowRpoLong.effectiveVsZone = none) ∧
    scoreRow (1/3) "dropback" rowRpoLong = 1/2 ∧
    ("rpo" : String) ≠ "dropback" ∧
    scoreRow (1/3) "rpo" rowLongTag = 1/2 ∧
    scoreRow 0 "dropback" rowLongTag = rowLongTag.effectiveVsMan.getD (1/2) ∧
    scoreRow 1 "dropback" rowLongTag = rowLongTag.effectiveVsZone.getD (1/2) := by
  have A := c4_dropback_score (1/3) rowRpoLong
  have B := c4_dropback_score (1/3) rowLongTag
  have C := c4_dropback_score 0 rowLongTag
  have D := c4_dropback_score 1 rowLongTag
  exact ⟨⟨rfl, rfl⟩, A.2.2.2.1 ⟨rfl, rfl⟩, by decide,
    B.2.2.2.2 "rpo" (by decide), C.2.1, D.2.2.1⟩

/-- C5.  When the depth-filtered set is non-empty and some positively
weighted category has matching rows, suggest_play returns a row whose
cleaned category carries positive weight and has matching rows; when no
category of the weight map has matching rows, it returns the "no play"
result. -/
theorem c5_weighted_category_selection (ds : List Row) (down distance : String)
    (coverage r : ℚ) (k : ℕ) :
    (0 ≤ r → r < 1 → filterByDepth ds down distance ≠ [] →
      (∃ cw ∈ weightsFor down distance, 0 < cw.2 ∧
        catRows (filterByDepth ds down distance) cw.1 ≠ []) →
      ∃ row cw, suggestPlay ds down distance coverage r k = .ok (some row) ∧
        cw ∈ weightsFor down distance ∧ 0 < cw.2 ∧
        row.playTypeCategoryCleaned = cw.1 ∧
        catRows (filterByDepth ds down distance) cw.1 ≠ [] ∧
        row ∈ filterByDepth ds down distance) ∧
    ((∀ cw ∈ weightsFor down distance,
        catRows (filterByDepth ds down distance) cw.1 = []) →
      suggestPlay ds down distance coverage r k = .ok none) :=
  ⟨fun hr0 hr1 _ hcat => suggestPlay_pick ds down distance coverage r k hr0 hr1 hcat,
   fun h => suggestPlay_none ds down distance coverage r k h⟩

/-- Witness for C5: the positive branch on the two-row dropback pool at
("3rd","long") with coverage 0 and draws r = 0, k = 0; the negative
branch on the empty dataset at ("1st","short"). -/
theorem c5_witness :
    ((0 : ℚ) ≤ 0 ∧ (0 : ℚ) < 1 ∧ filterByDepth demoPool "3rd" "long" ≠ [] ∧
      (∃ cw ∈ weightsFor "3rd" "long", 0 < cw.2 ∧
        catRows (filterByDepth demoPool "3rd" "long") cw.1 ≠ []) ∧
      (∃ row cw, suggestPlay demoPool "3rd" "long" 0 0 0 = .ok (some row) ∧
        cw ∈ weightsFor "3rd" "long" ∧ 0 < cw.2 ∧
        row.playTypeCategoryCleaned = cw.1 ∧
        catRows (filterByDepth demoPool "3rd" "long") cw.1 ≠ [] ∧
        row ∈ filterByDepth demoPool "3rd" "long")) ∧
    ((∀ cw ∈ weightsFor "1st" "short",
        catRows (filterByDepth ([] : List Row) "1st" "short") cw.1 = []) ∧
      suggestPlay [] "1st" "short" 0 0 0 = .ok none) := by
  have hr0 : (0 : ℚ) ≤ 0 := by decide
  have hr1 : (0 : ℚ) < 1 := by decide
  have hne : filterByDepth demoPool "3rd" "long" ≠ [] := by
    intro h; exact List.cons_ne_nil rowLongTag [rowZoneTag] h
  have hcat : ∃ cw ∈ weightsFor "3rd" "long", 0 < cw.2 ∧
      catRows (filterByDepth demoPool "3rd" "long") cw.1 ≠ [] := by
    refine ⟨("dropback", 1), ?_, by norm_num, ?_⟩
    · rw [weightsFor_eq]; simp [w3rdLong]
    · intro h; exact List.cons_ne_nil rowLongTag [rowZoneTag] h
  have hnull : ∀ cw ∈ weightsFor "1st" "short",
      catRows (filterByDepth ([] : List Row) "1st" "short") cw.1 = [] := by
    intro cw _; rfl
  exact ⟨⟨hr0, hr1, hne, hcat,
      (c5_weighted_category_selection demoPool "3rd" "long" 0 0 0).1 hr0 hr1 hne hcat⟩,
    ⟨hnull, (c5_weighted_category_selection [] "1st" "short" 0 0 0).2 hnull⟩⟩

/-- C6.  The final play selection: the pool is ordered by score
descending; the top slice is its first 10 rows (all rows when the pool is
smaller); the returned row is drawn from that slice, and every index of
the slice is reachable by the uniform draw. -/
theorem c6_top10_uniform_pick (coverage : ℚ) (category : String) (pool : List Row) (k : ℕ) :
    (topSlice coverage category pool).length = min 10 pool.length ∧
    (∃ rest, pool.mergeSort (scoreDescLe coverage category) =
        topSlice coverage category pool ++ rest ∧
      (topSlice coverage category pool ++ rest).Perm pool ∧
      (topSlice coverage category pool ++ rest).Pairwise
        (fun a b => scoreRow coverage category b ≤ scoreRow coverage category a)) ∧
    (pool ≠ [] → ∃ row, pickFromPool coverage category pool k = some row ∧
      row ∈ topSlice coverage category pool) ∧
    (∀ i, i < (topSlice coverage category pool).length →
      pickFromPool coverage category pool i = (topSlice coverage category pool).get? i) := by
  refine ⟨?_, ?_, ?_, ?_⟩
  · simp [topSlice, List.length_take, List.length_mergeSort]
  · refine ⟨(pool.mergeSort (scoreDescLe coverage category)).drop 10, ?_, ?_, ?_⟩
    · rw [topSlice, List.take_append_drop]
    · rw [topSlice, List.take_append_drop]
      exact List.mergeSort_perm pool _
    · rw [topSlice, List.take_append_drop]
      have hs := @List.sorted_mergeSort Row (scoreDescLe coverage category)
        (fun a b c hab hbc => scoreDescLe_trans coverage category a b c hab hbc)
        (fun a b => scoreDescLe_total coverage category a b) pool
      exact hs.imp (fun h => by simpa [scoreDescLe, decide_eq_true_eq] using h)
  · intro h
    obtain ⟨row, hpick, htop, -⟩ := pickFromPool_mem coverage category pool k h
    exact ⟨row, hpick, htop⟩
  · intro i hi
    simp [pickFromPool, Nat.mod_eq_of_lt hi]

/-- Witness for C6 on the two-row demo pool, exercising the non-empty
pick (k = 3) and the index-reachability conjunct at i = 1. -/
theorem c6_witness :
    demoPool ≠ [] ∧
    (∃ row, pickFromPool 0 "dropback" demoPool 3 = some row ∧
      row ∈ topSlice 0 "dropback" demoPool) ∧
    1 < (topSlice 0 "dropback" demoPool).length ∧
    pickFromPool 0 "dropback" demoPool 1 = (topSlice 0 "dropback" demoPool).get? 1 := by
  have A := c6_top10_uniform_pick 0 "dropback" demoPool 3
  have hne : demoPool ≠ [] := by
    intro h; exact List.cons_ne_nil rowLongTag [rowZoneTag] h
  have hlen : 1 < (topSlice 0 "dropback" demoPool).length := by
    rw [A.1]; decide
  exact ⟨hne, A.2.2.1 hne, hlen, A.2.2.2 1 hlen⟩

/-- C7.  The loaded cleaned category is "rpo" exactly when the lowercase
raw category contains "rpo" or "screen" as a substring, is the raw value
unchanged otherwise, and is computed by loadData for every row from its
raw category. -/
theorem c7_normalize_category (x : String) (rows : List RawRow) :
    (normalizeCategory x = "rpo" ↔
      IsSubstrOf "rpo".data (lowerStr x).data ∨
      IsSubstrOf "screen".data (lowerStr x).data) ∧
    (¬(IsSubstrOf "rpo".data (lowerStr x).data ∨
        IsSubstrOf "screen".data (lowerStr x).data) →
      normalizeCategory x = x) ∧
    (loadData rows).map (fun row => row.playTypeCategoryCleaned) =
      rows.map (fun r => normalizeCategory r.playTypeCategory) := by
  have key : (hasSub "rpo".data (lowerStr x).data ||
      hasSub "screen".data (lowerStr x).data) = true ↔
      IsSubstrOf "rpo".data (lowerStr x).data ∨
      IsSubstrOf "screen".data (lowerStr x).data := by
    simp [Bool.or_eq_true, hasSub_iff]
  refine ⟨⟨?_, ?_⟩, ?_, ?_⟩
  · intro h
    by_cases hb : (hasSub "rpo".data (lowerStr x).data ||
        hasSub "screen".data (lowerStr x).data) = true
    · exact key.1 hb
    · rw [normalizeCategory, if_neg hb] at h
      subst h
      exact Or.inl ⟨[], [], by decide⟩
  · intro h
    rw [normalizeCategory, if_pos (key.2 h)]
  · intro hnot
    cases hb : (hasSub "rpo".data (lowerStr x).data ||
        hasSub "screen".data (lowerStr x).data) with
    | true => exact absurd (key.1 hb) hnot
    | false => rw [normalizeCategory, if_neg (by simp [hb])]
  · simp [loadData]

/-- Witness for C7: "Bubble SCREEN" normalizes to "rpo"; "run_option"
contains neither keyword and is left unchanged. -/
theorem c7_witness :
    normalizeCategory "Bubble SCREEN" = "rpo" ∧
    ¬(IsSubstrOf "rpo".data (lowerStr "run_option").data ∨
      IsSubstrOf "screen".data (lowerStr "run_option").data) ∧
    normalizeCategory "run_option" = "run_option" ∧
    (loadData []).map (fun row => row.playTypeCategoryCleaned) =
      ([] : List RawRow).map (fun r => normalizeCategory r.playTypeCategory) := by
  have hnot : ¬(IsSubstrOf "rpo".data (lowerStr "run_option").data ∨
      IsSubstrOf "screen".data (lowerStr "run_option").data) := by
    rintro (h | h)
    · exact absurd ((hasSub_iff _ _).2 h) (by decide)
    · exact absurd ((hasSub_iff _ _).2 h) (by decide)
  refine ⟨?_, hnot, (c7_normalize_category "run_option" []).2.1 hnot,
    (c7_normalize_category "run_option" []).2.2⟩
  exact (c7_normalize_category "Bubble SCREEN" []).1.2
    (Or.inr ⟨"bubble ".data, [], by decide⟩)

/-- C9.  At down "3rd", distance "long" on a dataset whose sole surviving
row is rpo-categorised, every available category carries weight 0; the
random.choices call then raises ValueError instead of the function
returning the "no play" result. -/
theorem c9_zero_total_weight_error :
    suggestPlay [rowRpoLong] "3rd" "long" (1/2) 0 0 =
      .error "Total of weights must be greater than zero" ∧
    suggestPlay [rowRpoLong] "3rd" "long" (1/2) 0 0 ≠ .ok none := by
  have hsub : filterByDepth [rowRpoLong] "3rd" "long" = [rowRpoLong] := rfl
  have hw : weightsFor "3rd" "long" = w3rdLong := by
    rw [weightsFor_eq]; simp
  have hav : availableOf [rowRpoLong] "3rd" "long" = [("rpo", 0)] := by
    unfold availableOf
    rw [hw, hsub]
    rfl
  have hrc : randomChoices1 ["rpo"] [0] 0 =
      .error "Total of weights must be greater than zero" := by
    norm_num [randomChoices1, cumFrom]
  have h1 : suggestPlay [rowRpoLong] "3rd" "long" (1/2) 0 0 =
      .error "Total of weights must be greater than zero" := by
    simp only [suggestPlay, hav, List.isEmpty_cons, Bool.false_eq_true, if_false,
      List.map_cons, List.map_nil, hrc]
  exact ⟨h1, by rw [h1]; intro h; exact Except.noConfusion h⟩

/-- C10.  A lookup key always pairs the down with a string distance, so
it never equals the configured ("1st", None) key: every first-down
recommendation uses the default weights, and the configured first-down
entry is unreachable for any (down, distance) lookup. -/
theorem c10_first_down_weights_default :
    (∀ distance : String, weightsFor "1st" distance = defaultWeights) ∧
    (∀ down distance : String, weightsFor down distance ≠ w1stNone) ∧
    defaultWeights = [("dropback", 1/2), ("rpo", 3/10), ("run_option", 1/5)] ∧
    w1stNone = [("dropback", 2/5), ("rpo", 3/10), ("run_option", 3/10)] := by
  refine ⟨?_, ?_, rfl, rfl⟩
  · intro d
    rw [weightsFor_eq, if_neg (by simp), if_neg (by simp)]
  · intro down d
    rw [weightsFor_eq]
    split_ifs
    · norm_num [w2ndLong, w1stNone]
    · norm_num [w3rdLong, w1stNone]
    · norm_num [defaultWeights, w1stNone]

end PlayCaller
